import Mathlib

/-!
Verification of the InvenTree API core against its specification.

The definitions below are a shallow embedding of the program source:

* `src/InvenTree/part/api.py` — `PartScheduling.retrieve`,
  `PartRequirements.retrieve`, `PartSerialNumberDetail.retrieve`,
  `CategoryList.filter_queryset`;
* `src/InvenTree/stock/api.py` — `StockLocationList.filter_queryset`,
  `StockList.create`.

Django model objects are embedded as Lean structures; querysets become
lists and `filter(...)` calls become `List.filter`.  Django model equality
compares primary keys, so cross-entity references are stored as ids
(`Nat`) and compared with `==`.  Decimal quantities are embedded as `Int`
(the claims under test are algebraic identities independent of
integrality), dates as `Option Nat` (`none` embeds a SQL/Python `None`
date; the claims only depend on the linear order of dates).

Code of the repository that is *not* in `src/` (model methods, helpers,
status tables) is either taken as an explicit parameter of the embedded
function, or — where a claim depends on its behaviour — defined from the
specification text, marked `Modelled from the spec:` in its doc comment.
-/

namespace InvenTreeProof

/-- A Part row, as referenced from `part/api.py`.  The nested-set fields
`tree_id, lft, rgt, level` carry the variant hierarchy (django-mptt). -/
structure Part where
  id : Nat
  trackable : Bool
  tree_id : Nat
  lft : Nat
  rgt : Nat
  level : Nat
deriving DecidableEq

/-- A purchase or sales order as seen through its line items:
`order.status`, `order.target_date`, `str(order)` and
`order.get_absolute_url()`. -/
structure OrderRec where
  status : Nat
  target_date : Option Nat
  descr : String
  url : String
deriving DecidableEq

/-- A SupplierPart, referenced by `line.part` on a purchase-order line:
`part` is the id of the underlying Part, `pack_size` its pack multiplier. -/
structure SupplierPart where
  part : Nat
  pack_size : Int
deriving DecidableEq

/-- A PurchaseOrderLineItem row. -/
structure POLine where
  part : SupplierPart
  order : OrderRec
  quantity : Int
  received : Int
  target_date : Option Nat
deriving DecidableEq

/-- A SalesOrderLineItem row (`part` is a direct Part id). -/
structure SOLine where
  part : Nat
  order : OrderRec
  quantity : Int
  shipped : Int
  target_date : Option Nat
deriving DecidableEq

/-- A Build (build order) row.  `part` is the id of the part being built;
`descr` embeds `str(build)` and `url` embeds `build.get_absolute_url()`. -/
structure Build where
  id : Nat
  part : Nat
  quantity : Int
  completed : Int
  status : Nat
  target_date : Option Nat
  descr : String
  url : String
deriving DecidableEq

/-- A BomItem row.  `part` is the assembly Part, `sub_part` the consumed
Part (both embedded in full: the scheduling code reads their nested-set
fields and `trackable`).  `substitutes` holds ids of alternate parts. -/
structure BomItem where
  id : Nat
  part : Part
  sub_part : Part
  quantity : Int
  inherited : Bool
  allow_variants : Bool
  substitutes : List Nat
deriving DecidableEq

/-- A stock item as referenced from a BuildItem allocation
(`allocation.stock_item.part`). -/
structure AllocStockItem where
  part : Nat
deriving DecidableEq

/-- A BuildItem (build allocation) row. -/
structure BuildItem where
  build : Nat
  bom_item : Nat
  stock_item : AllocStockItem
  quantity : Int
deriving DecidableEq

/-- The queryable store backing `PartScheduling.retrieve`: one list per
Django model that the endpoint reads. -/
structure SchedDB where
  parts : List Part
  po_lines : List POLine
  so_lines : List SOLine
  builds : List Build
  bom_items : List BomItem
  build_items : List BuildItem
deriving DecidableEq

/-- The order-status classification sets (`PurchaseOrderStatus.OPEN`,
`SalesOrderStatus.OPEN`, `BuildStatus.ACTIVE_CODES`).  These tables live
outside `src/`; they are passed in as membership predicates. -/
structure StatusSets where
  poOpen : Nat → Bool
  soOpen : Nat → Bool
  buildActive : Nat → Bool

/-- One entry of the scheduling response (the dict built by
`add_schedule_entry` in `PartScheduling.retrieve`). -/
structure ScheduleEntry where
  date : Option Nat
  quantity : Int
  speculative_quantity : Int
  title : String
  label : String
  url : String
deriving DecidableEq

/-- Python `line.target_date or line.order.target_date` (a date object is
always truthy, so `or` falls through exactly on `None`). -/
def dateFallback (line_date order_date : Option Nat) : Option Nat :=
  match line_date with
  | some d => some d
  | none => order_date

/-- Entry for one open purchase-order line (part/api.py lines 492-507). -/
def poEntry (line : POLine) : ScheduleEntry :=
  { date := dateFallback line.target_date line.order.target_date
    quantity := max (line.quantity - line.received) 0 * line.part.pack_size
    speculative_quantity := 0
    title := "Incoming Purchase Order"
    label := line.order.descr
    url := line.order.url }

/-- Entry for one open sales-order line (part/api.py lines 515-527). -/
def soEntry (line : SOLine) : ScheduleEntry :=
  { date := dateFallback line.target_date line.order.target_date
    quantity := -(max (line.quantity - line.shipped) 0)
    speculative_quantity := 0
    title := "Outgoing Sales Order"
    label := line.order.descr
    url := line.order.url }

/-- Entry for one active build order producing the part
(part/api.py lines 535-545). -/
def buildProducedEntry (bd : Build) : ScheduleEntry :=
  { date := bd.target_date
    quantity := max (bd.quantity - bd.completed) 0
    speculative_quantity := 0
    title := "Stock produced by Build Order"
    label := bd.descr
    url := bd.url }

/-- Modelled from the spec: django-mptt `get_descendants(include_self)`
is not in `src/`; §4.1 defines `descendants(node, include_self)` as all
nodes with the same `tree_id` whose `(lft, rgt)` interval is contained in
the node's interval, strictly when `include_self` is false. -/
def getDescendants (parts : List Part) (node : Part) (include_self : Bool) : List Part :=
  parts.filter (fun n =>
    n.tree_id == node.tree_id &&
      (if include_self
        then decide (node.lft ≤ n.lft) && decide (n.rgt ≤ node.rgt)
        else decide (node.lft < n.lft) && decide (n.rgt < node.rgt)))

/-- Strict variant-descendant test on the embedded nested-set fields
(containment per spec §4.1, used pointwise by `usedInBomItemFilter`). -/
def isVariantDescendant (target node : Part) : Bool :=
  target.tree_id == node.tree_id &&
    decide (node.lft < target.lft) && decide (target.rgt < node.rgt)

/-- Modelled from the spec: `Part.get_used_in_bom_item_filter` is not in
`src/`; §4.2 `used_in_filter(target_part)` matches a BomItem `b` when any
of: (1) `b.sub_part` is the target; (2) `b.inherited` and `b`'s assembly
is an ancestor-or-self of the target in the Part tree; (3) the target id
appears in `b.substitutes`; (4) `b.allow_variants` and the target is a
variant descendant of `b.sub_part`. -/
def usedInBomItemFilter (target : Part) (b : BomItem) : Bool :=
  b.sub_part.id == target.id
    || (b.inherited && (b.part.id == target.id || isVariantDescendant target b.part))
    || b.substitutes.contains target.id
    || (b.allow_variants && isVariantDescendant target b.sub_part)

/-- The BomItem rows this part might be used in (part/api.py line 565). -/
def matchedBomItems (part : Part) (db : SchedDB) : List BomItem :=
  db.bom_items.filter (usedInBomItemFilter part)

/-- Active builds for one BomItem (part/api.py lines 573-584): an
inherited row also matches builds of variant parts of its assembly. -/
def buildsForBomItem (db : SchedDB) (st : StatusSets) (b : BomItem) : List Build :=
  if b.inherited then
    let childs := getDescendants db.parts b.part true
    db.builds.filter (fun bd => st.buildActive bd.status && childs.any (fun c => c.id == bd.part))
  else
    db.builds.filter (fun bd => st.buildActive bd.status && bd.part == b.part.id)

/-- Modelled from the spec: `Build.remaining` is not in `src/`; §4.3
`required_quantity` uses outstanding outputs `build.quantity -
build.completed` for trackable sub-parts. -/
def Build.remaining (bd : Build) : Int :=
  bd.quantity - bd.completed

/-- Required quantity of the sub-part for one build
(part/api.py lines 594-599). -/
def requiredQuantity (b : BomItem) (bd : Build) : Int :=
  if b.sub_part.trackable then
    Build.remaining bd * b.quantity
  else
    bd.quantity * b.quantity

/-- The allocation loop of part/api.py lines 602-617: over all BuildItem
rows for this build and bom_item accumulate
`(total_allocated_quantity, part_allocated_quantity)`. -/
def allocationTotals (part : Part) (db : SchedDB) (b : BomItem) (bd : Build) : Int × Int :=
  (db.build_items.filter (fun a => a.bom_item == b.id && a.build == bd.id)).foldl
    (fun acc a =>
      (acc.1 + a.quantity,
       if a.stock_item.part == part.id then acc.2 + a.quantity else acc.2))
    (0, 0)

/-- The total quantity allocated against one (bom_item, build) pair as
the claim phrases it: the sum over every BuildItem row for that build and
bom_item, regardless of which part the allocated stock item holds. -/
def totalAllocatedFor (db : SchedDB) (b : BomItem) (bd : Build) : Int :=
  ((db.build_items.filter (fun a => a.bom_item == b.id && a.build == bd.id)).map
    (fun a => a.quantity)).sum

/-- The consuming-build schedule entry for one (bom_item, build) pair
(part/api.py lines 594-632). -/
def buildEntryFor (part : Part) (db : SchedDB) (b : BomItem) (bd : Build) : ScheduleEntry :=
  let required_quantity := requiredQuantity b bd
  let totals := allocationTotals part db b bd
  let speculative_quantity : Int :=
    if required_quantity > totals.1 then -1 * (required_quantity - totals.1) else 0
  { date := bd.target_date
    quantity := -totals.2
    speculative_quantity := speculative_quantity
    title := "Stock required for Build Order"
    label := bd.descr
    url := bd.url }

/-- One iteration of the consuming-builds loop (part/api.py lines
586-632): skip builds already in `seen_builds` (Django compares models by
primary key), otherwise record the build and append its entry. -/
def consumeStep (part : Part) (db : SchedDB) (b : BomItem)
    (acc : List ScheduleEntry × List Nat) (bd : Build) : List ScheduleEntry × List Nat :=
  if acc.2.contains bd.id then acc
  else (acc.1 ++ [buildEntryFor part db b bd], acc.2 ++ [bd.id])

/-- The full consuming-builds double loop (part/api.py lines 564-632),
returning the appended entries together with the final `seen_builds`. -/
def consumingFold (part : Part) (db : SchedDB) (st : StatusSets) :
    List ScheduleEntry × List Nat :=
  (matchedBomItems part db).foldl
    (fun acc b => (buildsForBomItem db st b).foldl (consumeStep part db b) acc)
    ([], [])

/-- The consuming-build entries of the schedule. -/
def consumingEntries (part : Part) (db : SchedDB) (st : StatusSets) : List ScheduleEntry :=
  (consumingFold part db st).1

/-- The `schedule` list of `PartScheduling.retrieve` as built by its four
loops, in discovery order, before the final sort (part/api.py lines
467-632).  Every entry is appended unconditionally. -/
def scheduleOf (part : Part) (db : SchedDB) (st : StatusSets) : List ScheduleEntry :=
  ((db.po_lines.filter (fun l => l.part.part == part.id && st.poOpen l.order.status)).map poEntry)
    ++ ((db.so_lines.filter (fun l => l.part == part.id && st.soOpen l.order.status)).map soEntry)
    ++ ((db.builds.filter (fun bd => bd.part == part.id && st.buildActive bd.status)).map buildProducedEntry)
    ++ consumingEntries part db st

/-- The legacy two-way comparator of part/api.py lines 634-648.  Note it
never returns 0: two entries that are both undated compare `-1`, and two
entries with equal dates compare `1`. -/
def compareEntries (e1 e2 : ScheduleEntry) : Int :=
  match e1.date with
  | none => -1
  | some d1 =>
    match e2.date with
    | none => 1
    | some d2 => if d1 < d2 then -1 else 1

/-- CPython binary-insertion step: the pivot is placed before the first
element `e` of the sorted prefix with `compareEntries x e < 0` (the
position CPython's `binarysort` finds through `__lt__` on the
`functools.cmp_to_key` wrapper). -/
def pyInsert (x : ScheduleEntry) : List ScheduleEntry → List ScheduleEntry
  | [] => [x]
  | e :: es => if compareEntries x e < 0 then x :: e :: es else e :: pyInsert x es

/-- CPython `count_run` ascending phase: extend the initial run while the
next element is not `__lt__`-below its predecessor. -/
def takeAscRun (prev : ScheduleEntry) :
    List ScheduleEntry → List ScheduleEntry × List ScheduleEntry
  | [] => ([], [])
  | x :: xs =>
    if compareEntries x prev < 0 then ([], x :: xs)
    else (x :: (takeAscRun x xs).1, (takeAscRun x xs).2)

/-- CPython `count_run` descending phase: extend while strictly
`__lt__`-descending (the collected run is then reversed). -/
def takeDescRun (prev : ScheduleEntry) :
    List ScheduleEntry → List ScheduleEntry × List ScheduleEntry
  | [] => ([], [])
  | x :: xs =>
    if compareEntries x prev < 0 then
      (x :: (takeDescRun x xs).1, (takeDescRun x xs).2)
    else ([], x :: xs)

/-- Embedding of Python `sorted(schedule, key=functools.cmp_to_key(compare))`
(part/api.py line 651): CPython Timsort detects one initial run
(reversing it when strictly descending) and binary-inserts every
remaining element into it.  For lists of fewer than 64 elements
`minrun = len` and this is exactly CPython's algorithm; the merge phase
that longer lists add preserves every property proved below. -/
def pySort (l : List ScheduleEntry) : List ScheduleEntry :=
  match l with
  | [] => []
  | [a] => [a]
  | a :: b :: rest =>
    if compareEntries b a < 0 then
      (takeDescRun b rest).2.foldl (fun s x => pyInsert x s)
        (a :: b :: (takeDescRun b rest).1).reverse
    else
      (takeAscRun b rest).2.foldl (fun s x => pyInsert x s)
        (a :: b :: (takeAscRun b rest).1)

/-- `PartScheduling.retrieve` (part/api.py lines 462-653): build the
schedule, then sort it with the two-way comparator. -/
def retrieveScheduling (part : Part) (db : SchedDB) (st : StatusSets) : List ScheduleEntry :=
  pySort (scheduleOf part db st)

/-- The date order the spec's ordering sentence describes: an undated
entry sorts (weakly) before everything, dated entries sort by date. -/
def dateLE : Option Nat → Option Nat → Bool
  | none, _ => true
  | some _, none => false
  | some a, some b => decide (a ≤ b)

/-- Entries in the claimed order relation. -/
def entryLE (e1 e2 : ScheduleEntry) : Bool :=
  dateLE e1.date e2.date

/-- The sub-list of entries carrying one fixed date: its preservation
under sorting is exactly the claimed stable tie-break for that date. -/
def filterDate (d : Nat) (l : List ScheduleEntry) : List ScheduleEntry :=
  l.filter (fun e => e.date == some d)

/-- Stable insertion w.r.t. `entryLE`: the new element goes after every
element that is `entryLE`-below-or-tied.  Used only to state the claimed
ordering, for comparison with the code's sort. -/
def stableInsert (x : ScheduleEntry) : List ScheduleEntry → List ScheduleEntry
  | [] => [x]
  | e :: es => if entryLE e x then e :: stableInsert x es else x :: e :: es

/-- The ordering claimed by the spec, as a definition built from its
words (not from the source): sort ascending by date with undated entries
first, breaking every tie by discovery order (a stable sort). -/
def claimedScheduling (part : Part) (db : SchedDB) (st : StatusSets) : List ScheduleEntry :=
  (scheduleOf part db st).foldl (fun s x => stableInsert x s) []

/-! PartRequirements.retrieve (part/api.py lines 670-687).  The six base
quantities come from Part model methods that live outside `src/`; they
are the inputs of the embedded endpoint. -/

/-- The Part-method values read by `PartRequirements.retrieve`. -/
structure ReqInputs where
  available_stock : Int
  on_order : Int
  required_build_order_quantity : Int
  allocated_build_order_quantity : Int
  required_sales_order_quantity : Int
  allocated_sales_order_quantity : Int
deriving DecidableEq

/-- The response dict of `PartRequirements.retrieve`. -/
structure RequirementsData where
  available_stock : Int
  on_order : Int
  required_build_order_quantity : Int
  allocated_build_order_quantity : Int
  required_sales_order_quantity : Int
  allocated_sales_order_quantity : Int
  allocated : Int
  required : Int
deriving DecidableEq

/-- `PartRequirements.retrieve` (part/api.py lines 670-687): copy the six
base quantities and derive `allocated` and `required` as the two sums. -/
def partRequirements (i : ReqInputs) : RequirementsData :=
  { available_stock := i.available_stock
    on_order := i.on_order
    required_build_order_quantity := i.required_build_order_quantity
    allocated_build_order_quantity := i.allocated_build_order_quantity
    required_sales_order_quantity := i.required_sales_order_quantity
    allocated_sales_order_quantity := i.allocated_sales_order_quantity
    allocated := i.allocated_build_order_quantity + i.allocated_sales_order_quantity
    required := i.required_build_order_quantity + i.required_sales_order_quantity }

/-! PartSerialNumberDetail.retrieve (part/api.py lines 716-733).
`get_latest_serial_number` and `increment_serial_number` live outside
`src/`; the latest serial and the incrementing function are inputs. -/

/-- The response of `PartSerialNumberDetail.retrieve`: the latest serial
and, when reported, the next one. -/
structure SerialInfo where
  latest : Option String
  next : Option String
deriving DecidableEq

/-- `PartSerialNumberDetail.retrieve` (part/api.py lines 716-733): report
`next` only when a latest serial exists and incrementing it changes it. -/
def partSerialNumberDetail (inc : String → String) (latest : Option String) : SerialInfo :=
  match latest with
  | none => { latest := none, next := none }
  | some l =>
    let next_serial := inc l
    { latest := some l
      next := if next_serial ≠ l then some next_serial else none }

/-! The cascade/depth tree filter shared verbatim by
`CategoryList.filter_queryset` (part/api.py lines 109-125) and
`StockLocationList.filter_queryset` (stock/api.py lines 261-279).
Both PartCategory and StockLocation are django-mptt nested-set models;
one record type embeds either. -/

/-- A nested-set tree node (PartCategory or StockLocation). -/
structure TreeNode where
  id : Nat
  parent : Option Nat
  tree_id : Nat
  lft : Nat
  rgt : Nat
  level : Nat
deriving DecidableEq

/-- Modelled from the spec: django-mptt `get_descendants(include_self)`
on categories/locations is not in `src/`; §4.1 defines it by nested-set
interval containment within the same `tree_id`, strict when
`include_self` is false. -/
def nodeDescendants (forest : List TreeNode) (node : TreeNode) (include_self : Bool) :
    List TreeNode :=
  forest.filter (fun n =>
    n.tree_id == node.tree_id &&
      (if include_self
        then decide (node.lft ≤ n.lft) && decide (n.rgt ≤ node.rgt)
        else decide (node.lft < n.lft) && decide (n.rgt < node.rgt)))

/-- The `cascade=true`, `depth=d`, `parent=C` branch of the two list
endpoints (part/api.py lines 113-120, stock/api.py lines 267-273):
collect the descendants-or-self of the parent node whose level is at most
`C.level + depth`, then keep every node whose parent is one of them
(`parent__in=parent_ids`; a SQL `IN` never matches a NULL parent). -/
def cascadeDepthFilter (forest : List TreeNode) (category : TreeNode) (depth : Nat) :
    List TreeNode :=
  let parents := (nodeDescendants forest category true).filter
    (fun p => decide (p.level ≤ category.level + depth))
  let parent_ids := parents.map (fun p => p.id)
  forest.filter (fun n =>
    match n.parent with
    | some pid => parent_ids.contains pid
    | none => false)

/-- The result the claim describes, defined from its words (not from the
source), for comparison: the descendants of `C` with
`level ≤ C.level + depth`. -/
def claimedCascadeResult (forest : List TreeNode) (category : TreeNode) (depth : Nat) :
    List TreeNode :=
  (nodeDescendants forest category false).filter
    (fun n => decide (n.level ≤ category.level + depth))

/-- Well-formedness of a nested-set forest, from the invariants of spec
§3: parents exist, with containment and level arithmetic; parentless
nodes are roots; strict containment increases level; ids are primary
keys; two distinct nodes of one tree are strictly nested or disjoint. -/
def WellFormedForest (forest : List TreeNode) : Prop :=
  (∀ n ∈ forest, n.lft < n.rgt) ∧
  (∀ n ∈ forest, ∀ pid, n.parent = some pid →
    ∃ p ∈ forest, p.id = pid ∧ p.tree_id = n.tree_id ∧
      p.lft < n.lft ∧ n.rgt < p.rgt ∧ n.level = p.level + 1) ∧
  (∀ n ∈ forest, n.parent = none → n.level = 0) ∧
  (∀ m ∈ forest, ∀ n ∈ forest, m.tree_id = n.tree_id →
    m.lft < n.lft → n.rgt < m.rgt → m.level < n.level) ∧
  (∀ m ∈ forest, ∀ n ∈ forest, m.id = n.id → m = n) ∧
  (∀ m ∈ forest, ∀ n ∈ forest, m.tree_id = n.tree_id → m ≠ n →
    (m.lft < n.lft ∧ n.rgt < m.rgt) ∨ (n.lft < m.lft ∧ m.rgt < n.rgt) ∨
      m.rgt < n.lft ∨ n.rgt < m.lft)

/-! StockList.create (stock/api.py lines 598-688): serial-number
extraction, per-serial validation with error aggregation, and batch
creation of serialized stock items. -/

/-- One token of a serial-number specification, the text being already
split at commas: a single value or an inclusive range. -/
inductive SerialToken where
  | single (n : Nat)
  | range (a b : Nat)
deriving DecidableEq

/-- Ascending expansion of one token. -/
def expandToken : SerialToken → List Nat
  | .single n => [n]
  | .range a b => (List.range (b + 1 - a)).map (a + ·)

/-- Modelled from the spec: `extract_serial_numbers` lives outside
`src/`; §4.5 `extract` expands the comma-separated tokens (ranges
ascending and inclusive) and fails when the expanded count differs from
`quantity` or any two tokens overlap/duplicate.  The `latest` argument of
the source call is accepted but not consulted by this model. -/
def extractSerialNumbers (tokens : List SerialToken) (quantity : Int)
    (latest : Option Nat) : Except String (List Nat) :=
  let _ := latest
  let serials := (tokens.map expandToken).flatten
  if (serials.length : Int) ≠ quantity then
    .error "Number of unique serial numbers does not match quantity"
  else if ¬serials.Nodup then
    .error "Duplicate serial numbers found"
  else
    .ok serials

/-- The per-serial validation loop of stock/api.py lines 622-633: walk
every extracted serial, collecting each invalid one and each distinct
error message raised by `part.validate_serial_number`. -/
def collectInvalid (validate : Nat → Option String) (serials : List Nat) :
    List Nat × List String :=
  serials.foldl
    (fun acc serial =>
      match validate serial with
      | none => acc
      | some m => (acc.1 ++ [serial], if acc.2.contains m then acc.2 else acc.2 ++ [m]))
    ([], [])

/-- The aggregated trailing message of stock/api.py lines 637-639. -/
def aggMessage (invalid : List Nat) : String :=
  "The following serial numbers already exist or are invalid : "
    ++ String.intercalate "," (invalid.map toString)

/-- The part fields read by `StockList.create`: `trackable` and the
result of `get_latest_serial_number()` (a method outside `src/`). -/
structure CreatePart where
  id : Nat
  trackable : Bool
  latest : Option Nat
deriving DecidableEq

/-- The request payload of `StockList.create` that the serial-number path
reads, the serial text already tokenized.  An empty token list embeds a
missing/empty `serial_numbers` field (Python falsiness). -/
structure CreateData where
  quantity : Int
  serial_tokens : List SerialToken
  location : Option Nat
deriving DecidableEq

/-- A created StockItem row (the fields the claims are about). -/
structure CreatedStockItem where
  part : Nat
  quantity : Int
  serial : Option Nat
  location : Option Nat
deriving DecidableEq

/-- The error raised by `StockList.create` before anything is saved. -/
inductive CreateError where
  | nonTrackable
  | extractFailed (msg : String)
  | invalidSerials (serial_numbers : List String)
deriving DecidableEq

/-- `StockList.create` (stock/api.py lines 598-688), embedded from the
serial-number handling onward.  `validate` embeds
`part.validate_serial_number(serial, raise_error=True)` (a Part method
outside `src/`): `some msg` is a raised DjangoValidationError.  On any
error the function aborts with no created items; on success with serials
it sets the quantity to 1 and creates one item per serial (the first on
the master item, the rest as duplicates). -/
def stockCreate (part : CreatePart) (validate : Nat → Option String)
    (data : CreateData) : Except CreateError (List CreatedStockItem) :=
  if data.serial_tokens ≠ [] then
    if ¬part.trackable then
      .error .nonTrackable
    else
      match extractSerialNumbers data.serial_tokens data.quantity part.latest with
      | .error m => .error (.extractFailed m)
      | .ok serials =>
        let ie := collectInvalid validate serials
        if ie.2 ≠ [] then
          .error (.invalidSerials (ie.2 ++ [aggMessage ie.1]))
        else
          .ok (serials.map (fun s =>
            { part := part.id, quantity := 1, serial := some s, location := data.location }))
  else
    .ok [{ part := part.id, quantity := data.quantity, serial := none,
           location := data.location }]

/-! Concrete fixtures used by counterexamples and witnesses. -/

/-- Status tables for the fixtures: 10 is an open order status, 20 an
active build status. -/
def fixStatus : StatusSets :=
  { poOpen := fun s => s == 10
    soOpen := fun s => s == 10
    buildActive := fun s => s == 20 }

/-- Fixture part for the scheduling counterexample. -/
def fixPart : Part :=
  { id := 1, trackable := false, tree_id := 1, lft := 1, rgt := 2, level := 0 }

/-- First undated active build producing `fixPart`. -/
def fixBuild1 : Build :=
  { id := 100, part := 1, quantity := 8, completed := 2, status := 20,
    target_date := none, descr := "BO0100", url := "/build/100/" }

/-- Second undated active build producing `fixPart`. -/
def fixBuild2 : Build :=
  { id := 101, part := 1, quantity := 4, completed := 0, status := 20,
    target_date := none, descr := "BO0101", url := "/build/101/" }

/-- Store for the scheduling-order counterexample: two undated producing
builds, discovered in the order `fixBuild1`, `fixBuild2`. -/
def fixDB : SchedDB :=
  { parts := [fixPart], po_lines := [], so_lines := [],
    builds := [fixBuild1, fixBuild2], bom_items := [], build_items := [] }

/-- Fixture part consumed by a build order. -/
def wPart : Part :=
  { id := 2, trackable := false, tree_id := 2, lft := 1, rgt := 2, level := 0 }

/-- Fixture assembly whose BOM consumes `wPart`. -/
def wAsm : Part :=
  { id := 3, trackable := false, tree_id := 3, lft := 1, rgt := 2, level := 0 }

/-- BomItem consuming two units of `wPart` per `wAsm`. -/
def wBom : BomItem :=
  { id := 50, part := wAsm, sub_part := wPart, quantity := 2,
    inherited := false, allow_variants := false, substitutes := [] }

/-- Active build of five `wAsm`, one completed. -/
def wBuild : Build :=
  { id := 200, part := 3, quantity := 5, completed := 1, status := 20,
    target_date := some 30, descr := "BO0200", url := "/build/200/" }

/-- Allocation of three units of `wPart` against `wBuild`. -/
def wAlloc1 : BuildItem :=
  { build := 200, bom_item := 50, stock_item := { part := 2 }, quantity := 3 }

/-- Allocation of one unit of a different part against `wBuild`. -/
def wAlloc2 : BuildItem :=
  { build := 200, bom_item := 50, stock_item := { part := 9 }, quantity := 1 }

/-- Fully received purchase-order line for `wPart` with no target date:
its schedule entry has a null date and zero quantity. -/
def wPO : POLine :=
  { part := { part := 2, pack_size := 1 }
    order := { status := 10, target_date := none, descr := "PO0001", url := "/po/1/" }
    quantity := 4, received := 4, target_date := none }

/-- Store for the consuming-build and unconditional-append witnesses. -/
def wDB : SchedDB :=
  { parts := [wPart, wAsm], po_lines := [wPO], so_lines := [],
    builds := [wBuild], bom_items := [wBom], build_items := [wAlloc1, wAlloc2] }

/-- Root of the two-node category fixture. -/
def tRoot : TreeNode :=
  { id := 1, parent := none, tree_id := 1, lft := 1, rgt := 4, level := 0 }

/-- Only child of `tRoot`. -/
def tChild : TreeNode :=
  { id := 2, parent := some 1, tree_id := 1, lft := 2, rgt := 3, level := 1 }

/-- Two-node forest: a root with one child. -/
def tForest : List TreeNode := [tRoot, tChild]

/-- Trackable part fixture for serialized stock creation. -/
def cPart7 : CreatePart := { id := 5, trackable := true, latest := none }

/-- Serial validator fixture: serials 1 and 3 are already in use. -/
def cValidate7 : Nat → Option String := fun s =>
  if s = 1 ∨ s = 3 then some "Serial number already exists" else none

/-- Request fixture asking for serials 1-3 with quantity 3. -/
def cData7 : CreateData :=
  { quantity := 3, serial_tokens := [.range 1 3], location := some 4 }

/-- Request fixture asking for serials 5-7 with quantity 3. -/
def cData8 : CreateData :=
  { quantity := 3, serial_tokens := [.range 5 7], location := none }

/-! Theorems. -/

/-- C3: for each consuming build order discovered during scheduling, the
required quantity is `(build.quantity - build.completed) * bom_item.quantity`
for a trackable sub-part and `build.quantity * bom_item.quantity`
otherwise. -/
theorem c3_required_quantity (b : BomItem) (bd : Build) :
    requiredQuantity b bd =
      if b.sub_part.trackable then (bd.quantity - bd.completed) * b.quantity
      else bd.quantity * b.quantity := rfl

/-- C5: the requirements endpoint returns `required` as the sum of the
build-order and sales-order required quantities, and `allocated` as the
sum of the build-order and sales-order allocated quantities. -/
theorem c5_requirements_sums (i : ReqInputs) :
    (partRequirements i).required
        = (partRequirements i).required_build_order_quantity
          + (partRequirements i).required_sales_order_quantity
      ∧ (partRequirements i).allocated
        = (partRequirements i).allocated_build_order_quantity
          + (partRequirements i).allocated_sales_order_quantity :=
  ⟨rfl, rfl⟩

/-- C9: the serial-numbers endpoint reports a `next` identifier exactly
when a latest serial exists and incrementing it yields a different value,
and the reported value is that increment. -/
theorem c9_next_serial (inc : String → String) (latest : Option String) (n : String) :
    (partSerialNumberDetail inc latest).next = some n ↔
      ∃ l, latest = some l ∧ inc l ≠ l ∧ n = inc l := by
  cases latest with
  | none => simp [partSerialNumberDetail]
  | some l =>
    by_cases h : inc l ≠ l
    · simp only [partSerialNumberDetail, if_pos h, Option.some.injEq]
      constructor
      · intro hn
        exact ⟨l, rfl, h, hn.symm⟩
      · rintro ⟨l', rfl, hne, hn⟩
        exact hn.symm
    · simp only [partSerialNumberDetail, if_neg h]
      constructor
      · intro hn
        cases hn
      · rintro ⟨l', hl', hne, hn⟩
        cases Option.some.inj hl'
        exact absurd hne h

/-- The first component of the allocation loop accumulates the plain sum
of the allocation quantities, whatever the starting pair. -/
theorem allocFold_fst (part : Part) (l : List BuildItem) (i1 i2 : Int) :
    (l.foldl
      (fun acc a =>
        (acc.1 + a.quantity,
         if a.stock_item.part == part.id then acc.2 + a.quantity else acc.2)) (i1, i2)).1
      = i1 + (l.map (fun a => a.quantity)).sum := by
  induction l generalizing i1 i2 with
  | nil => simp
  | cons a l ih =>
    simp only [List.foldl_cons, List.map_cons, List.sum_cons]
    rw [ih]
    ring

/-- Folding the consuming-builds invariant over one bom item's builds. -/
theorem consumeFold_inv (part : Part) (db : SchedDB) (b : BomItem)
    (P : List ScheduleEntry × List Nat → Prop)
    (hstep : ∀ acc bd, P acc → P (consumeStep part db b acc bd)) :
    ∀ (builds : List Build) (acc : List ScheduleEntry × List Nat),
      P acc → P (builds.foldl (consumeStep part db b) acc) := by
  intro builds
  induction builds with
  | nil => intro acc h; exact h
  | cons bd bds ih =>
    intro acc h
    exact ih _ (hstep acc bd h)

/-- Folding an invariant over the whole consuming-builds double loop. -/
theorem outerFold_inv (part : Part) (db : SchedDB) (st : StatusSets)
    (P : List ScheduleEntry × List Nat → Prop)
    (hstep : ∀ b acc bd, P acc → P (consumeStep part db b acc bd)) :
    ∀ (bs : List BomItem) (acc : List ScheduleEntry × List Nat),
      P acc →
        P (bs.foldl
          (fun acc b => (buildsForBomItem db st b).foldl (consumeStep part db b) acc) acc) := by
  intro bs
  induction bs with
  | nil => intro acc h; exact h
  | cons b bs ih =>
    intro acc h
    exact ih _ (consumeFold_inv part db b P (hstep b) _ acc h)

/-- C2: every consuming-build schedule entry arises from a matched
(bom_item, build) pair, and its speculative quantity is
`-(required_quantity - total_allocated_quantity)` exactly when
`required_quantity > total_allocated_quantity` — the total summing every
BuildItem allocation for that build and bom_item regardless of the part
allocated — and `0` otherwise. -/
theorem c2_speculative_quantity (part : Part) (db : SchedDB) (st : StatusSets) :
    (∀ e ∈ consumingEntries part db st, ∃ b bd, e = buildEntryFor part db b bd) ∧
      ∀ b bd,
        (buildEntryFor part db b bd).speculative_quantity =
          if requiredQuantity b bd > totalAllocatedFor db b bd then
            -(requiredQuantity b bd - totalAllocatedFor db b bd)
          else 0 := by
  constructor
  · have h := outerFold_inv part db st
      (fun acc => ∀ e ∈ acc.1, ∃ b bd, e = buildEntryFor part db b bd)
      (by
        intro b acc bd hacc
        unfold consumeStep
        split
        · exact hacc
        · intro e he
          rcases List.mem_append.mp he with h1 | h2
          · exact hacc e h1
          · rcases List.mem_singleton.mp h2 with rfl
            exact ⟨b, bd, rfl⟩)
      (matchedBomItems part db) ([], [])
      (by intro e he; cases he)
    exact h
  · intro b bd
    have hfst : (allocationTotals part db b bd).1 = totalAllocatedFor db b bd := by
      unfold allocationTotals totalAllocatedFor
      rw [allocFold_fst]
      ring
    unfold buildEntryFor
    simp only [hfst]
    by_cases hgt : requiredQuantity b bd > totalAllocatedFor db b bd
    · simp only [if_pos hgt]
      ring
    · simp only [if_neg hgt]

/-- Witness for C2 at the concrete fixture: the partially allocated
`wBuild` (required 10, total allocated 4) yields speculative quantity
`-(10 - 4) = -6`, and its entry is a member of the consuming entries. -/
theorem c2_speculative_quantity_witness :
    ((buildEntryFor wPart wDB wBom wBuild).speculative_quantity =
        if requiredQuantity wBom wBuild > totalAllocatedFor wDB wBom wBuild then
          -(requiredQuantity wBom wBuild - totalAllocatedFor wDB wBom wBuild)
        else 0) ∧
      (∃ b bd, buildEntryFor wPart wDB wBom wBuild = buildEntryFor wPart wDB b bd) ∧
      (buildEntryFor wPart wDB wBom wBuild).speculative_quantity = -6 :=
  ⟨(c2_speculative_quantity wPart wDB fixStatus).2 wBom wBuild,
   (c2_speculative_quantity wPart wDB fixStatus).1 (buildEntryFor wPart wDB wBom wBuild)
     (by decide),
   by decide⟩

/-- C4: across the consuming-builds loops, the recorded build ids are
pairwise distinct and in bijection with the appended schedule entries:
each build order contributes at most one entry even when several matching
BomItems reference it. -/
theorem c4_builds_deduplicated (part : Part) (db : SchedDB) (st : StatusSets) :
    (consumingFold part db st).2.Nodup ∧
      (consumingFold part db st).1.length = (consumingFold part db st).2.length := by
  have h := outerFold_inv part db st
    (fun acc => acc.2.Nodup ∧ acc.1.length = acc.2.length)
    (by
      intro b acc bd hacc
      unfold consumeStep
      split
      · exact hacc
      · rename_i hseen
        have hnm : bd.id ∉ acc.2 := by
          intro hmem
          exact hseen (List.elem_iff.mpr hmem)
        refine ⟨?_, ?_⟩
        · simpa [List.nodup_append, hnm] using hacc.1
        · simp [hacc.2])
    (matchedBomItems part db) ([], [])
    (by constructor <;> simp)
  exact h

/-- The validation loop only ever appends: whatever has been collected
stays collected. -/
theorem collectFold_mono (validate : Nat → Option String) (l : List Nat)
    (acc : List Nat × List String) :
    acc.1 ⊆ (l.foldl
        (fun acc serial =>
          match validate serial with
          | none => acc
          | some m =>
            (acc.1 ++ [serial], if acc.2.contains m then acc.2 else acc.2 ++ [m])) acc).1
      ∧ acc.2 ⊆ (l.foldl
        (fun acc serial =>
          match validate serial with
          | none => acc
          | some m =>
            (acc.1 ++ [serial], if acc.2.contains m then acc.2 else acc.2 ++ [m])) acc).2 := by
  induction l generalizing acc with
  | nil => exact ⟨fun _ h => h, fun _ h => h⟩
  | cons a l ih =>
    simp only [List.foldl_cons]
    rcases hv : validate a with _ | m
    · simpa [hv] using ih acc
    · simp only [hv]
      refine ⟨fun x hx => ?_, fun x hx => ?_⟩
      · exact (ih _).1 (List.mem_append_left _ hx)
      · refine (ih _).2 ?_
        split
        · exact hx
        · exact List.mem_append_left _ hx

/-- Completeness of the validation loop: every serial the validator
rejects ends up in the invalid list, and its message in the error list. -/
theorem collectInvalid_complete (validate : Nat → Option String) (serials : List Nat) :
    ∀ s ∈ serials, ∀ m, validate s = some m →
      s ∈ (collectInvalid validate serials).1 ∧ m ∈ (collectInvalid validate serials).2 := by
  unfold collectInvalid
  suffices h : ∀ (l : List Nat) (acc : List Nat × List String), ∀ s ∈ l, ∀ m,
      validate s = some m →
        s ∈ (l.foldl
          (fun acc serial =>
            match validate serial with
            | none => acc
            | some m =>
              (acc.1 ++ [serial], if acc.2.contains m then acc.2 else acc.2 ++ [m])) acc).1
        ∧ m ∈ (l.foldl
          (fun acc serial =>
            match validate serial with
            | none => acc
            | some m =>
              (acc.1 ++ [serial], if acc.2.contains m then acc.2 else acc.2 ++ [m])) acc).2 by
    exact fun s hs m hm => h serials ([], []) s hs m hm
  intro l
  induction l with
  | nil => intro acc s hs; cases hs
  | cons a l ih =>
    intro acc s hs m hm
    rcases List.mem_cons.mp hs with rfl | hs'
    · simp only [List.foldl_cons, hm]
      constructor
      · exact (collectFold_mono validate l _).1 (List.mem_append_right _ (List.mem_singleton.mpr rfl))
      · refine (collectFold_mono validate l _).2 ?_
        split
        · rename_i hcm
          exact List.elem_iff.mp hcm
        · exact List.mem_append_right _ (List.mem_singleton.mpr rfl)
    · simp only [List.foldl_cons]
      exact ih _ s hs' m hm

/-- A rejected serial forces a non-empty message list. -/
theorem collectInvalid_ne_nil (validate : Nat → Option String) (serials : List Nat)
    (h : ∃ s ∈ serials, validate s ≠ none) :
    (collectInvalid validate serials).2 ≠ [] := by
  rcases h with ⟨s, hs, hv⟩
  rcases hm : validate s with _ | m
  · exact absurd hm hv
  · intro hnil
    have := (collectInvalid_complete validate serials s hs m hm).2
    rw [hnil] at this
    cases this

/-- C7: when any extracted serial is invalid, serialized stock creation
fails with a ValidationError whose message list aggregates every distinct
error message followed by the summary naming every invalid serial, and no
stock item is created; every rejected serial is in the aggregated invalid
list and its message in the error list. -/
theorem c7_errors_aggregated (part : CreatePart) (validate : Nat → Option String)
    (data : CreateData) (serials : List Nat)
    (htok : data.serial_tokens ≠ [])
    (htrack : part.trackable = true)
    (hex : extractSerialNumbers data.serial_tokens data.quantity part.latest = .ok serials)
    (hbad : ∃ s ∈ serials, validate s ≠ none) :
    stockCreate part validate data =
        .error (.invalidSerials ((collectInvalid validate serials).2
          ++ [aggMessage (collectInvalid validate serials).1]))
      ∧ ∀ s ∈ serials, ∀ m, validate s = some m →
          s ∈ (collectInvalid validate serials).1
            ∧ m ∈ (collectInvalid validate serials).2 := by
  refine ⟨?_, collectInvalid_complete validate serials⟩
  unfold stockCreate
  rw [if_pos htok, if_neg (by simp [htrack]), hex]
  simp only
  rw [if_pos (collectInvalid_ne_nil validate serials hbad)]

/-- Witness for C7 at the concrete fixture: requesting serials 1-3 while
1 and 3 are already used aborts creation with both invalid serials
aggregated into one error. -/
theorem c7_errors_aggregated_witness :
    (stockCreate cPart7 cValidate7 cData7 =
        .error (.invalidSerials ((collectInvalid cValidate7 [1, 2, 3]).2
          ++ [aggMessage (collectInvalid cValidate7 [1, 2, 3]).1]))
      ∧ ∀ s ∈ [1, 2, 3], ∀ m, cValidate7 s = some m →
          s ∈ (collectInvalid cValidate7 [1, 2, 3]).1
            ∧ m ∈ (collectInvalid cValidate7 [1, 2, 3]).2) ∧
      (collectInvalid cValidate7 [1, 2, 3]).1 = [1, 3] :=
  ⟨c7_errors_aggregated cPart7 cValidate7 cData7 [1, 2, 3] (by decide) rfl (by rfl)
      ⟨1, by decide, by decide⟩,
   by decide⟩

/-- C8: whenever stock creation is given serial numbers and succeeds,
every created stock item has quantity exactly 1, regardless of the
submitted quantity. -/
theorem c8_serialized_quantity_one (part : CreatePart) (validate : Nat → Option String)
    (data : CreateData) (items : List CreatedStockItem)
    (htok : data.serial_tokens ≠ [])
    (hok : stockCreate part validate data = .ok items) :
    ∀ it ∈ items, it.quantity = 1 := by
  unfold stockCreate at hok
  rw [if_pos htok] at hok
  split at hok
  · cases hok
  · split at hok
    · cases hok
    · dsimp only at hok
      split at hok
      · cases hok
      · rcases Except.ok.inj hok with rfl
        intro it hit
        rcases List.mem_map.mp hit with ⟨s, _, rfl⟩
        rfl

/-- Witness for C8 at the concrete fixture: serials 5-7 produce three
stock items, each of quantity 1. -/
theorem c8_serialized_quantity_one_witness :
    stockCreate cPart7 (fun _ => none) cData8 =
        .ok [⟨5, 1, some 5, none⟩, ⟨5, 1, some 6, none⟩, ⟨5, 1, some 7, none⟩]
      ∧ ∀ it ∈ ([⟨5, 1, some 5, none⟩, ⟨5, 1, some 6, none⟩,
          ⟨5, 1, some 7, none⟩] : List CreatedStockItem), it.quantity = 1 :=
  ⟨by rfl,
   c8_serialized_quantity_one cPart7 (fun _ => none) cData8 _ (by decide) (by rfl)⟩

/-- The claimed date order is transitive. -/
theorem dateLE_trans (a b c : Option Nat)
    (h1 : dateLE a b = true) (h2 : dateLE b c = true) : dateLE a c = true := by
  cases a <;> cases b <;> cases c <;> (simp_all [dateLE]; try omega)

/-- A comparator verdict `< 0` implies the claimed order. -/
theorem cmp_neg_le (x e : ScheduleEntry) (h : compareEntries x e < 0) :
    entryLE x e = true := by
  cases hx : x.date with
  | none => simp [entryLE, dateLE, hx]
  | some dx =>
    cases he : e.date with
    | none => simp [compareEntries, hx, he] at h
    | some de =>
      simp only [compareEntries, hx, he] at h
      by_cases hlt : dx < de
      · have hle : dx ≤ de := Nat.le_of_lt hlt
        simp [entryLE, dateLE, hx, he, hle]
      · rw [if_neg hlt] at h
        norm_num at h

/-- A comparator verdict `≥ 0` implies the reversed claimed order. -/
theorem cmp_nonneg_le (x e : ScheduleEntry) (h : ¬compareEntries x e < 0) :
    entryLE e x = true := by
  cases hx : x.date with
  | none =>
    exfalso
    exact h (by simp [compareEntries, hx])
  | some dx =>
    cases he : e.date with
    | none => simp [entryLE, dateLE, he]
    | some de =>
      have hnlt : ¬dx < de := by
        intro hlt
        refine h ?_
        simp only [compareEntries, hx, he, if_pos hlt]
        norm_num
      have hle : de ≤ dx := Nat.le_of_not_lt hnlt
      simp [entryLE, dateLE, hx, he, hle]

/-- Prefixing an `entryLE` lower bound onto a sorted list. -/
theorem pairwise_entryLE_cons (a b : ScheduleEntry) (l : List ScheduleEntry)
    (hab : entryLE a b = true)
    (h : List.Pairwise (fun x y => entryLE x y = true) (b :: l)) :
    List.Pairwise (fun x y => entryLE x y = true) (a :: b :: l) := by
  rcases List.pairwise_cons.mp h with ⟨hb, _⟩
  refine List.pairwise_cons.mpr ⟨?_, h⟩
  intro y hy
  rcases List.mem_cons.mp hy with rfl | hy'
  · exact hab
  · exact dateLE_trans _ _ _ hab (hb y hy')

/-- Binary insertion returns a permutation of the pivot joined to the
prefix. -/
theorem pyInsert_perm (x : ScheduleEntry) (l : List ScheduleEntry) :
    List.Perm (pyInsert x l) (x :: l) := by
  induction l with
  | nil => simp [pyInsert]
  | cons e es ih =>
    unfold pyInsert
    split
    · exact List.Perm.refl _
    · exact (ih.cons e).trans (List.Perm.swap x e es)

/-- Binary insertion preserves sortedness in the claimed date order. -/
theorem pyInsert_pairwise (x : ScheduleEntry) (l : List ScheduleEntry)
    (h : List.Pairwise (fun a b => entryLE a b = true) l) :
    List.Pairwise (fun a b => entryLE a b = true) (pyInsert x l) := by
  induction l with
  | nil => simp [pyInsert]
  | cons e es ih =>
    rcases List.pairwise_cons.mp h with ⟨he, hes⟩
    unfold pyInsert
    split
    · rename_i hlt
      refine List.pairwise_cons.mpr ⟨?_, h⟩
      intro y hy
      rcases List.mem_cons.mp hy with rfl | hy'
      · exact cmp_neg_le x y hlt
      · exact dateLE_trans _ _ _ (cmp_neg_le x e hlt) (he y hy')
    · rename_i hge
      refine List.pairwise_cons.mpr ⟨?_, ih hes⟩
      intro y hy
      rcases List.mem_cons.mp ((pyInsert_perm x es).mem_iff.mp hy) with heq | hy'
      · rw [heq]
        exact cmp_nonneg_le x e hge
      · exact he y hy'

/-- Unfolding `filterDate` over a cons cell. -/
theorem filterDate_cons (d : Nat) (e : ScheduleEntry) (l : List ScheduleEntry) :
    filterDate d (e :: l) =
      (if e.date == some d then [e] else []) ++ filterDate d l := by
  unfold filterDate
  rw [List.filter_cons]
  split
  · simp_all
  · simp_all

/-- `filterDate` distributes over append. -/
theorem filterDate_append (d : Nat) (l1 l2 : List ScheduleEntry) :
    filterDate d (l1 ++ l2) = filterDate d l1 ++ filterDate d l2 := by
  unfold filterDate
  exact List.filter_append l1 l2

/-- A pivot dated `d` that compares below an entry forces that entry —
and, in a sorted list, everything after it — strictly after `d`. -/
theorem cmp_lt_dated (x e : ScheduleEntry) (d : Nat) (hxd : x.date = some d)
    (hlt : compareEntries x e < 0) : ∃ de, e.date = some de ∧ d < de := by
  cases he : e.date with
  | none => simp [compareEntries, hxd, he] at hlt
  | some de =>
    simp only [compareEntries, hxd, he] at hlt
    by_cases hd : d < de
    · exact ⟨de, rfl, hd⟩
    · rw [if_neg hd] at hlt
      norm_num at hlt

/-- In a sorted prefix, nothing at or after an entry the dated pivot
compares below can carry the pivot's date. -/
theorem filterDate_nil_of_lt (x e : ScheduleEntry) (es : List ScheduleEntry) (d : Nat)
    (hxd : x.date = some d)
    (hlt : compareEntries x e < 0)
    (h : List.Pairwise (fun a b => entryLE a b = true) (e :: es)) :
    filterDate d (e :: es) = [] := by
  rcases cmp_lt_dated x e d hxd hlt with ⟨de, hde, hdlt⟩
  unfold filterDate
  rw [List.filter_eq_nil_iff]
  intro a ha
  rcases List.mem_cons.mp ha with rfl | ha'
  · rw [hde]
    simp only [beq_iff_eq, Option.some.injEq]
    omega
  · rcases List.pairwise_cons.mp h with ⟨he, _⟩
    have hle := he a ha'
    unfold entryLE dateLE at hle
    rw [hde] at hle
    cases haa : a.date with
    | none => rw [haa] at hle; cases hle
    | some da =>
      rw [haa] at hle
      simp only [decide_eq_true_eq] at hle
      simp only [beq_iff_eq, Option.some.injEq]
      omega

/-- Binary insertion into a sorted prefix appends the pivot at the end of
its date class: any fixed-date sub-list either gains the pivot at its end
or is unchanged. -/
theorem pyInsert_filterDate (x : ScheduleEntry) (l : List ScheduleEntry) (d : Nat)
    (h : List.Pairwise (fun a b => entryLE a b = true) l) :
    filterDate d (pyInsert x l) =
      filterDate d l ++ (if x.date == some d then [x] else []) := by
  induction l with
  | nil =>
    show filterDate d [x] = filterDate d [] ++ (if x.date == some d then [x] else [])
    rw [filterDate_cons]
    simp [filterDate]
  | cons e es ih =>
    rcases List.pairwise_cons.mp h with ⟨he, hes⟩
    unfold pyInsert
    split
    · rename_i hlt
      by_cases hxd : x.date = some d
      · have hnil := filterDate_nil_of_lt x e es d hxd hlt h
        have hx' : (x.date == some d) = true := by simpa using hxd
        rw [filterDate_cons, hnil, hx']
        simp
      · have hx' : (x.date == some d) = false := by simpa using hxd
        simp [filterDate_cons, hx']
    · rename_i hge
      rw [filterDate_cons, filterDate_cons, ih hes]
      split <;> simp

/-- Invariant of the binary-insertion fold: the result is a permutation
of prefix-plus-pivots, sorted, with each date class extended in
insertion order. -/
theorem foldInsert_spec (xs : List ScheduleEntry) :
    ∀ init : List ScheduleEntry,
      List.Pairwise (fun a b => entryLE a b = true) init →
        List.Perm (xs.foldl (fun s x => pyInsert x s) init) (init ++ xs)
          ∧ List.Pairwise (fun a b => entryLE a b = true)
              (xs.foldl (fun s x => pyInsert x s) init)
          ∧ ∀ d, filterDate d (xs.foldl (fun s x => pyInsert x s) init)
              = filterDate d init ++ filterDate d xs := by
  induction xs with
  | nil =>
    intro init h
    refine ⟨by simp, h, fun d => by simp [filterDate]⟩
  | cons x xs ih =>
    intro init h
    simp only [List.foldl_cons]
    rcases ih (pyInsert x init) (pyInsert_pairwise x init h) with ⟨hperm, hpair, hfil⟩
    refine ⟨?_, hpair, ?_⟩
    · refine hperm.trans ?_
      refine (((pyInsert_perm x init).append_right xs).trans ?_)
      simpa using List.perm_middle.symm
    · intro d
      rw [hfil d, pyInsert_filterDate x init d h, filterDate_cons]
      simp

/-- The ascending run splits the list. -/
theorem takeAscRun_append (prev : ScheduleEntry) (l : List ScheduleEntry) :
    (takeAscRun prev l).1 ++ (takeAscRun prev l).2 = l := by
  induction l generalizing prev with
  | nil => rfl
  | cons x xs ih =>
    unfold takeAscRun
    split
    · rfl
    · simp [ih x]

/-- The ascending run is sorted in the claimed date order, below its
starting element. -/
theorem takeAscRun_pairwise (prev : ScheduleEntry) (l : List ScheduleEntry) :
    List.Pairwise (fun a b => entryLE a b = true) (prev :: (takeAscRun prev l).1) := by
  induction l generalizing prev with
  | nil => simp [takeAscRun]
  | cons x xs ih =>
    unfold takeAscRun
    split
    · simp
    · rename_i hge
      exact pairwise_entryLE_cons prev x _ (cmp_nonneg_le x prev hge) (ih x)

/-- The descending run splits the list. -/
theorem takeDescRun_append (prev : ScheduleEntry) (l : List ScheduleEntry) :
    (takeDescRun prev l).1 ++ (takeDescRun prev l).2 = l := by
  induction l generalizing prev with
  | nil => rfl
  | cons x xs ih =>
    unfold takeDescRun
    split
    · simp [ih x]
    · rfl

/-- The strict comparator descent is transitive. -/
theorem cmp_desc_trans (a b c : ScheduleEntry)
    (h1 : compareEntries b a < 0) (h2 : compareEntries c b < 0) :
    compareEntries c a < 0 := by
  cases hc : c.date with
  | none => simp [compareEntries, hc]
  | some dc =>
    cases hb : b.date with
    | none => simp [compareEntries, hc, hb] at h2
    | some db =>
      cases ha : a.date with
      | none => simp [compareEntries, hb, ha] at h1
      | some da =>
        simp only [compareEntries, hc, hb] at h2
        simp only [compareEntries, hb, ha] at h1
        by_cases h2' : dc < db
        · by_cases h1' : db < da
          · simp only [compareEntries, hc, ha, if_pos (Nat.lt_trans h2' h1')]
            norm_num
          · rw [if_neg h1'] at h1
            norm_num at h1
        · rw [if_neg h2'] at h2
          norm_num at h2

/-- Prefixing a comparator-descent upper bound onto a descending chain. -/
theorem pairwise_desc_cons (a b : ScheduleEntry) (l : List ScheduleEntry)
    (hab : compareEntries b a < 0)
    (h : List.Pairwise (fun x y => compareEntries y x < 0) (b :: l)) :
    List.Pairwise (fun x y => compareEntries y x < 0) (a :: b :: l) := by
  rcases List.pairwise_cons.mp h with ⟨hb, _⟩
  refine List.pairwise_cons.mpr ⟨?_, h⟩
  intro y hy
  rcases List.mem_cons.mp hy with rfl | hy'
  · exact hab
  · exact cmp_desc_trans a b y hab (hb y hy')

/-- The descending run is a strict comparator-descent chain from its
starting element. -/
theorem takeDescRun_pairwise (prev : ScheduleEntry) (l : List ScheduleEntry) :
    List.Pairwise (fun x y => compareEntries y x < 0) (prev :: (takeDescRun prev l).1) := by
  induction l generalizing prev with
  | nil => simp [takeDescRun]
  | cons x xs ih =>
    unfold takeDescRun
    split
    · rename_i hlt
      exact pairwise_desc_cons prev x _ hlt (ih x)
    · simp

/-- Reversing a comparator-descent chain yields a list sorted in the
claimed date order. -/
theorem desc_pairwise_flip (l : List ScheduleEntry)
    (h : List.Pairwise (fun x y => compareEntries y x < 0) l) :
    List.Pairwise (fun a b => entryLE a b = true) l.reverse := by
  rw [List.pairwise_reverse]
  exact h.imp (fun hxy => cmp_neg_le _ _ hxy)

/-- A comparator-descent chain holds at most one entry of any fixed
date. -/
theorem desc_filterDate_short (l : List ScheduleEntry) (d : Nat)
    (h : List.Pairwise (fun x y => compareEntries y x < 0) l) :
    filterDate d l = [] ∨ ∃ e, filterDate d l = [e] := by
  have hf : List.Pairwise (fun x y => compareEntries y x < 0) (filterDate d l) :=
    h.filter _
  match hfd : filterDate d l with
  | [] => exact Or.inl rfl
  | [e] => exact Or.inr ⟨e, rfl⟩
  | e1 :: e2 :: t =>
    exfalso
    rw [hfd] at hf
    have h12 := (List.pairwise_cons.mp hf).1 e2 (List.mem_cons_self _ _)
    have he1 : e1.date = some d := by
      have hm : e1 ∈ filterDate d l := by
        rw [hfd]; exact List.mem_cons_self _ _
      rcases List.mem_filter.mp hm with ⟨_, hp⟩
      simpa using hp
    have he2 : e2.date = some d := by
      have hm : e2 ∈ filterDate d l := by
        rw [hfd]
        exact List.mem_cons_of_mem _ (List.mem_cons_self _ _)
      rcases List.mem_filter.mp hm with ⟨_, hp⟩
      simpa using hp
    simp only [compareEntries, he1, he2, Nat.lt_irrefl, if_neg] at h12
    norm_num at h12

/-- Reversal does not disturb the (at most singleton) fixed-date
sub-lists of a comparator-descent chain. -/
theorem filterDate_reverse_of_desc (l : List ScheduleEntry) (d : Nat)
    (h : List.Pairwise (fun x y => compareEntries y x < 0) l) :
    filterDate d l.reverse = filterDate d l := by
  have hrev : filterDate d l.reverse = (filterDate d l).reverse := by
    unfold filterDate
    exact List.filter_reverse _ l
  rw [hrev]
  rcases desc_filterDate_short l d h with hnil | ⟨e, he⟩
  · rw [hnil]; rfl
  · rw [he]; rfl

/-- The CPython sort of the schedule comparator: the output is a
permutation of the input, sorted in the claimed weak date order (undated
entries first, dated entries ascending), and for every fixed date the
entries carrying it keep their input order. -/
theorem pySort_spec (l : List ScheduleEntry) :
    List.Perm (pySort l) l
      ∧ List.Pairwise (fun a b => entryLE a b = true) (pySort l)
      ∧ ∀ d, filterDate d (pySort l) = filterDate d l := by
  match l with
  | [] => exact ⟨List.Perm.refl _, List.Pairwise.nil, fun d => rfl⟩
  | [a] => exact ⟨List.Perm.refl _, List.pairwise_singleton _ a, fun d => rfl⟩
  | a :: b :: rest =>
    have hps0 : pySort (a :: b :: rest)
        = if compareEntries b a < 0 then
            (takeDescRun b rest).2.foldl (fun s x => pyInsert x s)
              (a :: b :: (takeDescRun b rest).1).reverse
          else
            (takeAscRun b rest).2.foldl (fun s x => pyInsert x s)
              (a :: b :: (takeAscRun b rest).1) := rfl
    by_cases hlt : compareEntries b a < 0
    · have hps : pySort (a :: b :: rest)
          = (takeDescRun b rest).2.foldl (fun s x => pyInsert x s)
              (a :: b :: (takeDescRun b rest).1).reverse := by
        rw [hps0, if_pos hlt]
      have hchain : List.Pairwise (fun x y => compareEntries y x < 0)
          (a :: b :: (takeDescRun b rest).1) :=
        pairwise_desc_cons a b _ hlt (takeDescRun_pairwise b rest)
      have hpair0 := desc_pairwise_flip _ hchain
      rcases foldInsert_spec (takeDescRun b rest).2
          (a :: b :: (takeDescRun b rest).1).reverse hpair0 with ⟨hperm, hpair, hfil⟩
      have happ : (a :: b :: (takeDescRun b rest).1) ++ (takeDescRun b rest).2
          = a :: b :: rest := by
        simp [takeDescRun_append b rest]
      rw [hps]
      refine ⟨?_, hpair, ?_⟩
      · refine hperm.trans ?_
        have hr : List.Perm
            ((a :: b :: (takeDescRun b rest).1).reverse ++ (takeDescRun b rest).2)
            ((a :: b :: (takeDescRun b rest).1) ++ (takeDescRun b rest).2) :=
          (List.reverse_perm _).append_right _
        rw [happ] at hr
        exact hr
      · intro d
        rw [hfil d, filterDate_reverse_of_desc _ d hchain, ← happ, filterDate_append]
    · have hps : pySort (a :: b :: rest)
          = (takeAscRun b rest).2.foldl (fun s x => pyInsert x s)
              (a :: b :: (takeAscRun b rest).1) := by
        rw [hps0, if_neg hlt]
      have hpair0 : List.Pairwise (fun x y => entryLE x y = true)
          (a :: b :: (takeAscRun b rest).1) :=
        pairwise_entryLE_cons a b _ (cmp_nonneg_le b a hlt) (takeAscRun_pairwise b rest)
      rcases foldInsert_spec (takeAscRun b rest).2
          (a :: b :: (takeAscRun b rest).1) hpair0 with ⟨hperm, hpair, hfil⟩
      have happ : (a :: b :: (takeAscRun b rest).1) ++ (takeAscRun b rest).2
          = a :: b :: rest := by
        simp [takeAscRun_append b rest]
      rw [hps]
      refine ⟨?_, hpair, ?_⟩
      · refine hperm.trans ?_
        rw [happ]
      · intro d
        rw [hfil d, ← happ, filterDate_append]

/-- C1 (counterexample): with two undated active builds discovered in the
order `fixBuild1`, `fixBuild2`, the endpoint returns their (equal-dated,
distinct) entries in the opposite order — CPython's sort reverses the
"strictly descending" run that the never-zero comparator reports for two
null-date entries — so the output differs from the claimed stable
null-first date sort of the discovery list. -/
theorem c1_scheduling_order_counterexample :
    scheduleOf fixPart fixDB fixStatus
        = [buildProducedEntry fixBuild1, buildProducedEntry fixBuild2]
      ∧ retrieveScheduling fixPart fixDB fixStatus
        = [buildProducedEntry fixBuild2, buildProducedEntry fixBuild1]
      ∧ (buildProducedEntry fixBuild1).date = (buildProducedEntry fixBuild2).date
      ∧ buildProducedEntry fixBuild1 ≠ buildProducedEntry fixBuild2
      ∧ retrieveScheduling fixPart fixDB fixStatus
        ≠ claimedScheduling fixPart fixDB fixStatus := by
  refine ⟨by decide, by decide, by decide, by decide, by decide⟩

/-- C1 (amended): the scheduling endpoint returns a permutation of the
discovered schedule entries in which every null-date entry precedes every
dated entry and dated entries are ascending by date
(`entryLE`-pairwise), and entries sharing any fixed non-null date keep
their discovery order; the mutual order of null-date entries is *not*
preserved in general. -/
theorem c1_scheduling_order_amended (part : Part) (db : SchedDB) (st : StatusSets) :
    List.Perm (retrieveScheduling part db st) (scheduleOf part db st)
      ∧ List.Pairwise (fun a b => entryLE a b = true) (retrieveScheduling part db st)
      ∧ ∀ d, filterDate d (retrieveScheduling part db st)
          = filterDate d (scheduleOf part db st) :=
  pySort_spec (scheduleOf part db st)

/-- C10: every computed schedule entry reaches the returned forecast
unconditionally — matching purchase-order lines, sales-order lines and
producing builds each contribute their entry with no condition on its
date (null or past) or quantity (zero included), and the sort drops
nothing. -/
theorem c10_unconditional_entries (part : Part) (db : SchedDB) (st : StatusSets) :
    (∀ l ∈ db.po_lines, l.part.part = part.id → st.poOpen l.order.status = true →
        poEntry l ∈ retrieveScheduling part db st)
      ∧ (∀ l ∈ db.so_lines, l.part = part.id → st.soOpen l.order.status = true →
          soEntry l ∈ retrieveScheduling part db st)
      ∧ (∀ bd ∈ db.builds, bd.part = part.id → st.buildActive bd.status = true →
          buildProducedEntry bd ∈ retrieveScheduling part db st)
      ∧ (retrieveScheduling part db st).length = (scheduleOf part db st).length := by
  have hperm := (pySort_spec (scheduleOf part db st)).1
  refine ⟨?_, ?_, ?_, hperm.length_eq⟩
  · intro line hl h1 h2
    refine hperm.mem_iff.mpr ?_
    unfold scheduleOf
    refine List.mem_append_left _ (List.mem_append_left _ (List.mem_append_left _ ?_))
    exact List.mem_map_of_mem poEntry (List.mem_filter.mpr ⟨hl, by simp [h1, h2]⟩)
  · intro line hl h1 h2
    refine hperm.mem_iff.mpr ?_
    unfold scheduleOf
    refine List.mem_append_left _ (List.mem_append_left _ (List.mem_append_right _ ?_))
    exact List.mem_map_of_mem soEntry (List.mem_filter.mpr ⟨hl, by simp [h1, h2]⟩)
  · intro bd hb h1 h2
    refine hperm.mem_iff.mpr ?_
    unfold scheduleOf
    refine List.mem_append_left _ (List.mem_append_right _ ?_)
    exact List.mem_map_of_mem buildProducedEntry (List.mem_filter.mpr ⟨hb, by simp [h1, h2]⟩)

/-- Witness for C10 at the concrete fixture: the fully received, undated
purchase-order line `wPO` yields an entry with a null date and zero
quantity that still appears in the returned forecast. -/
theorem c10_unconditional_entries_witness :
    poEntry wPO ∈ retrieveScheduling wPart wDB fixStatus
      ∧ (poEntry wPO).date = none ∧ (poEntry wPO).quantity = 0 :=
  ⟨(c10_unconditional_entries wPart wDB fixStatus).1 wPO (by decide) (by decide) (by decide),
   by decide, by decide⟩

/-- Membership in the spec-modelled descendants-or-self set. -/
theorem mem_nodeDescendants_self (forest : List TreeNode) (c q : TreeNode) :
    q ∈ nodeDescendants forest c true ↔
      q ∈ forest ∧ q.tree_id = c.tree_id ∧ c.lft ≤ q.lft ∧ q.rgt ≤ c.rgt := by
  unfold nodeDescendants
  rw [List.mem_filter]
  simp [and_assoc]

/-- Membership in the cascade/depth filter result: a parent id that is a
bounded descendant-or-self of the queried node. -/
theorem mem_cascadeDepthFilter (forest : List TreeNode) (category : TreeNode)
    (depth : Nat) (n : TreeNode) :
    n ∈ cascadeDepthFilter forest category depth ↔
      n ∈ forest ∧ ∃ pid, n.parent = some pid ∧
        ∃ q ∈ nodeDescendants forest category true,
          q.level ≤ category.level + depth ∧ q.id = pid := by
  unfold cascadeDepthFilter
  rw [List.mem_filter]
  constructor
  · rintro ⟨hn, hp⟩
    refine ⟨hn, ?_⟩
    cases hpar : n.parent with
    | none => rw [hpar] at hp; cases hp
    | some pid =>
      rw [hpar] at hp
      rcases List.mem_map.mp (List.elem_iff.mp hp) with ⟨q, hq, hqid⟩
      rcases List.mem_filter.mp hq with ⟨hqd, hql⟩
      exact ⟨pid, rfl, q, hqd, by simpa using hql, hqid⟩
  · rintro ⟨hn, pid, hpar, q, hqd, hql, hqid⟩
    refine ⟨hn, ?_⟩
    rw [hpar]
    exact List.elem_iff.mpr
      (List.mem_map.mpr ⟨q, List.mem_filter.mpr ⟨hqd, by simpa using hql⟩, hqid⟩)

/-- C6 (counterexample): for the two-node forest and `depth = 0` the
endpoint returns the child of the queried root — its level exceeds
`C.level + depth` — while the claimed result set is empty. -/
theorem c6_cascade_depth_counterexample :
    cascadeDepthFilter tForest tRoot 0 = [tChild]
      ∧ claimedCascadeResult tForest tRoot 0 = []
      ∧ tRoot.level + 0 < tChild.level
      ∧ cascadeDepthFilter tForest tRoot 0 ≠ claimedCascadeResult tForest tRoot 0 :=
  ⟨by decide, by decide, by decide, by decide⟩

/-- C6 (amended): on a well-formed nested-set forest, the list endpoint
queried with `parent=C`, `cascade=true` and `depth=d` returns exactly the
strict descendants `n` of `C` with `n.level ≤ C.level + d + 1`
(equivalently: the nodes whose parent is a descendant-or-self of `C` of
level at most `C.level + d`) — one tree level deeper than the claim's
`n.level ≤ C.level + d`. -/
theorem c6_cascade_depth_amended (forest : List TreeNode) (category : TreeNode)
    (depth : Nat) (n : TreeNode)
    (hwf : WellFormedForest forest) (hcat : category ∈ forest) :
    n ∈ cascadeDepthFilter forest category depth ↔
      n ∈ forest ∧ n.tree_id = category.tree_id ∧
        category.lft < n.lft ∧ n.rgt < category.rgt ∧
        n.level ≤ category.level + depth + 1 := by
  rcases hwf with ⟨hlr, hparent, hroot, hlevel, hid, hcross⟩
  rw [mem_cascadeDepthFilter]
  constructor
  · rintro ⟨hn, pid, hpar, q, hqd, hql, hqid⟩
    rcases (mem_nodeDescendants_self forest category q).mp hqd with ⟨hqf, hqt, hqlft, hqrgt⟩
    rcases hparent n hn pid hpar with ⟨p, hpf, hpid, hpt, hplft, hprgt, hplev⟩
    have hqp : q = p := hid q hqf p hpf (by rw [hqid, hpid])
    subst hqp
    refine ⟨hn, ?_, ?_, ?_, ?_⟩
    · rw [← hpt, hqt]
    · exact Nat.lt_of_le_of_lt hqlft hplft
    · exact Nat.lt_of_lt_of_le hprgt hqrgt
    · omega
  · rintro ⟨hn, hnt, hnlft, hnrgt, hnlev⟩
    have hclev : category.level < n.level :=
      hlevel category hcat n hn hnt.symm hnlft hnrgt
    cases hpar : n.parent with
    | none =>
      exfalso
      have := hroot n hn hpar
      omega
    | some pid =>
      rcases hparent n hn pid hpar with ⟨p, hpf, hpid, hpt, hplft, hprgt, hplev⟩
      have hnlr := hlr n hn
      have hpdesc : category.lft ≤ p.lft ∧ p.rgt ≤ category.rgt := by
        by_cases hpc : p = category
        · rw [hpc]
          exact ⟨Nat.le_refl _, Nat.le_refl _⟩
        · rcases hcross p hpf category hcat (by rw [hpt, hnt]) hpc with
            ⟨h1, h2⟩ | ⟨h1, h2⟩ | h1 | h1
          · exfalso
            have := hlevel p hpf category hcat (by rw [hpt, hnt]) h1 h2
            omega
          · exact ⟨Nat.le_of_lt h1, Nat.le_of_lt h2⟩
          · omega
          · omega
      refine ⟨hn, pid, rfl, p, ?_, by omega, hpid⟩
      exact (mem_nodeDescendants_self forest category p).mpr
        ⟨hpf, by rw [hpt, hnt], hpdesc.1, hpdesc.2⟩

/-- Witness for the amended C6 theorem on the two-node forest: the child
is returned for `depth = 0` because its level is `C.level + 0 + 1`. -/
theorem c6_cascade_depth_amended_witness :
    tChild ∈ cascadeDepthFilter tForest tRoot 0 :=
  (c6_cascade_depth_amended tForest tRoot 0 tChild
      ⟨by decide, by decide, by decide, by decide, by decide, by decide⟩
      (by decide)).mpr
    ⟨by decide, by decide, by decide, by decide, by decide⟩

end InvenTreeProof
